import Mathlib

/-!
Verification of the moderation settings editor and the pricing plan card.

JavaScript strings that undergo character-level operations (the keywords
textarea value) are embedded as `List Char`; strings that are only compared
or tested for truthiness are embedded as Lean `String`.  Optional object
fields are embedded as `Option`; JS truthiness of an optional string is
"present and non-empty".  The dynamic provider fields stored on the
`configs` object are embedded as an association list `extra`.
-/

set_option maxRecDepth 4000

/-- A JavaScript string viewed as its sequence of characters. -/
abbrev JStr := List Char

/-- `value.split('\n')` : split a character sequence at newline characters.
`splitNl [] = [[]]`, matching JS `"".split('\n') = [""]`. -/
def splitNl : JStr → List JStr
  | [] => [[]]
  | c :: rest =>
    if c = '\n' then [] :: splitNl rest
    else
      match splitNl rest with
      | [] => [[c]]
      | h :: t => (c :: h) :: t

/-- `arr.join('\n')` : interleave a newline between the pieces. -/
def joinNl : List JStr → JStr
  | [] => []
  | [l] => l
  | l :: l2 :: ls => l ++ '\n' :: joinNl (l2 :: ls)

/-- One step of the `reduce` inside `handleDataKeywordsChange`:
non-empty lines are pushed truncated to their first 100 characters, and an
empty line is pushed only when the previously pushed line is not empty
(with an empty accumulator, `prev[prev.length - 1]` is `undefined`, which
differs from `''`, so the empty line is pushed). -/
def keywordsStep (prev : List JStr) (next : JStr) : List JStr :=
  let prev1 := if next ≠ [] then prev ++ [next.take 100] else prev
  if next = [] ∧ prev1.getLast? ≠ some [] then prev1 ++ [next] else prev1

/-- The `reduce` of `handleDataKeywordsChange` over the split lines. -/
def keywordsArr (value : JStr) : List JStr :=
  (splitNl value).foldl keywordsStep []

/-- The string stored by `handleDataKeywordsChange`:
`arr.slice(0, 100).join('\n')`. -/
def newKeywords (value : JStr) : JStr :=
  joinNl ((keywordsArr value).take 100)

/-- Invariant of the lines produced by the keywords reduce: no embedded
newline, and non-empty lines have at most 100 characters. -/
def goodLine (l : JStr) : Prop :=
  ('\n' : Char) ∉ l ∧ (l ≠ [] → l.length ≤ 100)

/-- The localized label of a form-schema field (`label['en-US']`,
`label['zh-Hans']`). -/
structure I18nLabel where
  en_US : String
  zh_Hans : String
deriving DecidableEq

/-- A form-schema field descriptor `{ variable, label }` (the source's
`variable` is spelled `varName`, `variable` being reserved in Lean). -/
structure FormField where
  varName : String
  label : I18nLabel
deriving DecidableEq

/-- A moderation provider: key, display name and optional form schema. -/
structure Provider where
  key : String
  name : String
  form_schema : Option (List FormField)
deriving DecidableEq

/-- `{ enabled: boolean, preset_response?: string }` for one direction. -/
structure ModerationContentConfig where
  enabled : Bool
  preset_response : Option String
deriving DecidableEq

/-- The `configs` bag of a moderation configuration.  Dynamic provider
fields live in the association list `extra`; a value of `none` in `extra`
models a key whose value is `undefined`. -/
structure Configs where
  inputs_configs : Option ModerationContentConfig
  outputs_configs : Option ModerationContentConfig
  keywords : Option JStr
  api_based_extension_id : Option String
  extra : List (String × Option String)
deriving DecidableEq

/-- The working copy held in the modal's `localeData` state. -/
structure ModerationConfig where
  enabled : Bool
  type : String
  configs : Option Configs
deriving DecidableEq

/-- The empty `configs` object (what `{...undefined}` spreads to). -/
def emptyConfigs : Configs := ⟨none, none, none, none, []⟩

/-- The default `{ enabled: false }` used by `formatData` when a direction
config is absent. -/
def defaultContentConfig : ModerationContentConfig := ⟨false, none⟩

/-- `const systemTypes = ['openai_moderation', 'keywords', 'api']`. -/
def systemTypes : List String := ["openai_moderation", "keywords", "api"]

/-- `providers.find(provider => provider.key === localeData.type)`. -/
def currentProvider (provs : List Provider) (ty : String) : Option Provider :=
  provs.find? (fun p => p.key == ty)

/-- The form schema used by the dynamic-provider branch: present exactly
when `ty` is not a system type and the matching provider carries a
`form_schema` (`systemTypes.findIndex(t => t === type) < 0 &&
currentProvider?.form_schema`). -/
def schemaOf (provs : List Provider) (ty : String) : Option (List FormField) :=
  if systemTypes.contains ty then none
  else (currentProvider provs ty).bind Provider.form_schema

/-- JS truthiness of an optional string: present and non-empty. -/
def truthyStr : Option String → Bool
  | none => false
  | some s => !(s == "")

/-- JS truthiness of an optional character-sequence string. -/
def truthyJStr : Option JStr → Bool
  | none => false
  | some s => !s.isEmpty

/-- `configs?.[v]` : dynamic-field lookup on the configs bag. -/
def lookupVar (oc : Option Configs) (v : String) : Option String :=
  match oc with
  | none => none
  | some c =>
    match c.extra.lookup v with
    | some ov => ov
    | none => none

/-- `localeData.configs?.inputs_configs?.enabled` as a boolean. -/
def inputsEnabled (d : ModerationConfig) : Bool :=
  match d.configs with
  | none => false
  | some c =>
    match c.inputs_configs with
    | none => false
    | some ic => ic.enabled

/-- `localeData.configs?.outputs_configs?.enabled` as a boolean. -/
def outputsEnabled (d : ModerationConfig) : Bool :=
  match d.configs with
  | none => false
  | some c =>
    match c.outputs_configs with
    | none => false
    | some oc => oc.enabled

/-- `localeData.configs.inputs_configs.preset_response`, optional-chained. -/
def inputsPresetResponse (d : ModerationConfig) : Option String :=
  (d.configs.bind Configs.inputs_configs).bind ModerationContentConfig.preset_response

/-- `localeData.configs.outputs_configs.preset_response`, optional-chained. -/
def outputsPresetResponse (d : ModerationConfig) : Option String :=
  (d.configs.bind Configs.outputs_configs).bind ModerationContentConfig.preset_response

/-- `handleDataTypeChange`: spread the previous state, replace `type`,
set `configs: undefined`. -/
def handleDataTypeChange (ty : String) (d : ModerationConfig) : ModerationConfig :=
  { d with type := ty, configs := none }

/-- `handleDataKeywordsChange`: split, reduce, cap at 100 lines, rejoin and
store under `configs.keywords`, spreading the previous `configs`. -/
def handleDataKeywordsChange (value : JStr) (d : ModerationConfig) : ModerationConfig :=
  { d with configs := some { d.configs.getD emptyConfigs with keywords := some (newKeywords value) } }

/-- The line counter rendered next to the textarea:
`(localeData.configs?.keywords || '').split('\n').filter(Boolean).length`. -/
def keywordsDisplayCount (d : ModerationConfig) : Nat :=
  ((splitNl (((d.configs.bind Configs.keywords)).getD [])).filter (fun l => !l.isEmpty)).length

/-- The distinct user-facing notifications emitted by `handleSave`.  Both
preset-response checks emit the same message, so they share one
constructor. -/
inductive SaveError where
  | conditionNotMet
  | valueOfVarRequired (key : String)
  | presetResponseMissing
deriving DecidableEq

/-- Rule 1 of `handleSave`: neither direction enabled. -/
def rule0Violated (d : ModerationConfig) : Bool :=
  !inputsEnabled d && !outputsEnabled d

/-- Rule 2: keywords provider with empty keywords. -/
def rule1Violated (d : ModerationConfig) : Bool :=
  d.type == "keywords" && !truthyJStr (d.configs.bind Configs.keywords)

/-- Rule 3: api provider with no extension selected. -/
def rule2Violated (d : ModerationConfig) : Bool :=
  d.type == "api" && !truthyStr (d.configs.bind Configs.api_based_extension_id)

/-- The first schema field whose value in `configs` is empty — the loop of
the dynamic-provider validation rule. -/
def firstMissingField (provs : List Provider) (d : ModerationConfig) : Option FormField :=
  (schemaOf provs d.type).bind
    (fun schema => schema.find? (fun f => !truthyStr (lookupVar d.configs f.varName)))

/-- Rule 4: dynamic provider with some required schema field missing. -/
def rule3Violated (provs : List Provider) (d : ModerationConfig) : Bool :=
  (firstMissingField provs d).isSome

/-- Rule 5: inputs moderation enabled without a preset response, for a
non-api provider. -/
def rule4Violated (d : ModerationConfig) : Bool :=
  inputsEnabled d && !truthyStr (inputsPresetResponse d) && !(d.type == "api")

/-- Rule 6: outputs moderation enabled without a preset response, for a
non-api provider. -/
def rule5Violated (d : ModerationConfig) : Bool :=
  outputsEnabled d && !truthyStr (outputsPresetResponse d) && !(d.type == "api")

/-- The sequential validation of `handleSave`: the first violated rule
produces its notification, later rules are not evaluated. -/
def validate (provs : List Provider) (locale : String) (d : ModerationConfig) : Option SaveError :=
  if rule0Violated d then some .conditionNotMet
  else if rule1Violated d then
    some (.valueOfVarRequired (if locale == "en" then "keywords" else "关键词"))
  else if rule2Violated d then
    some (.valueOfVarRequired (if locale == "en" then "API-based Extension" else "基于 API 的扩展"))
  else
    match firstMissingField provs d with
    | some f =>
      some (.valueOfVarRequired (if locale == "en" then f.label.en_US else f.label.zh_Hans))
    | none =>
      if rule4Violated d then some .presetResponseMissing
      else if rule5Violated d then some .presetResponseMissing
      else none

/-- `formatData`: destructures `configs!` (faulting — `none` — when the
working copy has no configs) and projects the working copy onto exactly the
persisted fields. -/
def formatData (provs : List Provider) (d : ModerationConfig) : Option ModerationConfig :=
  match d.configs with
  | none => none
  | some c =>
    some
      { enabled := d.enabled
        type := d.type
        configs := some
          { inputs_configs := some (c.inputs_configs.getD defaultContentConfig)
            outputs_configs := some (c.outputs_configs.getD defaultContentConfig)
            keywords := if d.type == "keywords" then c.keywords else none
            api_based_extension_id := if d.type == "api" then c.api_based_extension_id else none
            extra :=
              match schemaOf provs d.type with
              | some schema => schema.map (fun f => (f.varName, lookupVar (some c) f.varName))
              | none => [] } }

/-- The observable outcome of one `handleSave` call: the (unchanged)
working copy, the notification emitted if any, and the value passed to the
`onSave` callback if it was invoked. -/
structure SaveOutcome where
  state : ModerationConfig
  notified : Option SaveError
  saved : Option ModerationConfig
deriving DecidableEq

/-- `handleSave`: validate; on failure notify and stop, otherwise pass
`formatData(localeData)` to `onSave`.  `none` models the (unreachable)
fault inside `formatData`. -/
def handleSave (provs : List Provider) (locale : String) (d : ModerationConfig) :
    Option SaveOutcome :=
  match validate provs locale d with
  | some e => some ⟨d, some e, none⟩
  | none =>
    match formatData provs d with
    | some out => some ⟨d, none, some out⟩
    | none => none

/-- The six validation rules as independent predicates, indexed in the
source's order. -/
def ruleViolated (provs : List Provider) (d : ModerationConfig) : Nat → Bool
  | 0 => rule0Violated d
  | 1 => rule1Violated d
  | 2 => rule2Violated d
  | 3 => rule3Violated provs d
  | 4 => rule4Violated d
  | 5 => rule5Violated d
  | _ => false

/-- The notification each rule emits when it is the one that fires. -/
def ruleError (provs : List Provider) (locale : String) (d : ModerationConfig) :
    Nat → SaveError
  | 0 => .conditionNotMet
  | 1 => .valueOfVarRequired (if locale == "en" then "keywords" else "关键词")
  | 2 => .valueOfVarRequired (if locale == "en" then "API-based Extension" else "基于 API 的扩展")
  | 3 =>
    match firstMissingField provs d with
    | some f => .valueOfVarRequired (if locale == "en" then f.label.en_US else f.label.zh_Hans)
    | none => .conditionNotMet
  | _ => .presetResponseMissing

/-- Keep an optional field only under a condition (spec: "keywords only
when type is keywords", likewise for the api extension id). -/
def keepWhen (cond : Bool) (v : Option α) : Option α :=
  if cond then v else none

/-- Spec §4.3: "one entry per dynamic-provider field when `type` is a
dynamic provider, copied from `configs`". -/
def specExtraFields (provs : List Provider) (ty : String) (c : Configs) :
    List (String × Option String) :=
  match schemaOf provs ty with
  | some schema => schema.map (fun f => (f.varName, lookupVar (some c) f.varName))
  | none => []

/-- The normalizer as the spec words it (§4.3): exactly `type`, `enabled`
and a `configs` holding the direction configs (defaulted to
`{ enabled: false }`), `keywords` only for the keywords type, the
extension id only for the api type, and the schema fields only for a
dynamic provider; everything else is dropped. -/
def normalizeSpec (provs : List Provider) (d : ModerationConfig) (c : Configs) :
    ModerationConfig :=
  { enabled := d.enabled
    type := d.type
    configs := some
      { inputs_configs := some (c.inputs_configs.getD defaultContentConfig)
        outputs_configs := some (c.outputs_configs.getD defaultContentConfig)
        keywords := keepWhen (d.type == "keywords") c.keywords
        api_based_extension_id := keepWhen (d.type == "api") c.api_based_extension_id
        extra := specExtraFields provs d.type c } }

/-- The billing plans (`Plan` enum). -/
inductive Plan where
  | sandbox
  | professional
  | team
  | enterprise
deriving DecidableEq

/-- The plan range selector (`PlanRange`). -/
inductive PlanRange where
  | monthly
  | yearly
deriving DecidableEq

/-- What the price block of `PlanItem` renders. -/
inductive PriceView where
  | freeText
  | contactSalesText
  | amount (dollars : Nat) (save : Option Nat)
deriving DecidableEq

/-- The price block of `PlanItem`: sandbox renders the free text,
enterprise renders contact-sales, every other plan renders
`$ (isYear ? price * 10 : price)` with the `save $ price * 2` badge shown
exactly when the yearly range is selected. -/
def planPriceView (plan : Plan) (monthlyPrice : Nat) (range : PlanRange) : PriceView :=
  if plan = .sandbox then .freeText
  else if plan = .enterprise then .contactSalesText
  else
    .amount (if range = .yearly then monthlyPrice * 10 else monthlyPrice)
      (if range = .yearly then some (monthlyPrice * 2) else none)

/-- The textarea input of the C2 scenario: `"a\nb\n"`. -/
def c2value : JStr := ['a', '\n', 'b', '\n']

/-- A prior state with no keywords configured. -/
def c2prior : ModerationConfig := ⟨false, "keywords", none⟩

/-- A catalog with one dynamic provider whose schema requires `api_key`
then `region` (labels spelled like the variables). -/
def dynProviders : List Provider :=
  [⟨"dyn-provider", "dyn",
    some [⟨"api_key", ⟨"api_key", "api_key"⟩⟩, ⟨"region", ⟨"region", "region"⟩⟩]⟩]

/-- The C6 scenario: dynamic provider type with empty configs. -/
def c6data : ModerationConfig := ⟨false, "dyn-provider", some emptyConfigs⟩

/-- The C6 scenario amended: same, but with inputs moderation enabled. -/
def c6dataEnabled : ModerationConfig :=
  ⟨false, "dyn-provider", some { emptyConfigs with inputs_configs := some ⟨true, none⟩ }⟩

/-- A working copy that passes every validation rule: openai moderation
with inputs enabled and a preset response. -/
def validData : ModerationConfig :=
  ⟨true, "openai_moderation",
    some { emptyConfigs with inputs_configs := some ⟨true, some "blocked"⟩ }⟩

/-- An api-provider working copy that passes rules 1–4 (used to witness
that no preset response is required for the api type). -/
def apiData : ModerationConfig :=
  ⟨true, "api",
    some { emptyConfigs with
            inputs_configs := some ⟨true, none⟩
            api_based_extension_id := some "ext-1" }⟩

/-- A working copy violating the first rule (nothing enabled). -/
def nothingEnabledData : ModerationConfig := ⟨true, "keywords", none⟩

/-! ### Lemmas about splitting and joining on newlines -/

theorem splitNl_ne_nil (s : JStr) : splitNl s ≠ [] := by
  induction s with
  | nil => simp [splitNl]
  | cons c rest ih =>
    simp only [splitNl]
    split
    · simp
    · cases h : splitNl rest <;> simp [h]

theorem mem_splitNl_no_newline (s : JStr) : ∀ l ∈ splitNl s, ('\n' : Char) ∉ l := by
  induction s with
  | nil => simp [splitNl]
  | cons c rest ih =>
    intro l hl
    simp only [splitNl] at hl
    by_cases hc : c = '\n'
    · simp [hc] at hl
      rcases hl with h | h
      · simp [h]
      · exact ih l h
    · simp [hc] at hl
      cases h : splitNl rest with
      | nil => exact absurd h (splitNl_ne_nil rest)
      | cons hd tl =>
        rw [h] at hl
        rcases List.mem_cons.mp hl with h1 | h1
        · subst h1
          intro hmem
          rcases List.mem_cons.mp hmem with h2 | h2
          · exact hc h2.symm
          · exact ih hd (h ▸ List.mem_cons_self hd tl) h2
        · exact ih l (h ▸ List.mem_cons_of_mem hd h1)

theorem splitNl_of_no_newline (l : JStr) (h : ('\n' : Char) ∉ l) : splitNl l = [l] := by
  induction l with
  | nil => rfl
  | cons c rest ih =>
    have hc : c ≠ '\n' := by
      intro e
      exact h (e ▸ List.mem_cons_self c rest)
    have hrest : ('\n' : Char) ∉ rest := fun hm => h (List.mem_cons_of_mem c hm)
    simp [splitNl, hc, ih hrest]

theorem splitNl_append (l s : JStr) (h : ('\n' : Char) ∉ l) :
    splitNl (l ++ '\n' :: s) = l :: splitNl s := by
  induction l with
  | nil => simp [splitNl]
  | cons c rest ih =>
    have hc : c ≠ '\n' := by
      intro e
      exact h (e ▸ List.mem_cons_self c rest)
    have hrest : ('\n' : Char) ∉ rest := fun hm => h (List.mem_cons_of_mem c hm)
    have key := ih hrest
    simp only [List.cons_append, splitNl, if_neg hc, List.append_eq]
    rw [key]

theorem splitNl_joinNl (ls : List JStr) (hne : ls ≠ [])
    (h : ∀ l ∈ ls, ('\n' : Char) ∉ l) : splitNl (joinNl ls) = ls := by
  induction ls with
  | nil => exact absurd rfl hne
  | cons l rest ih =>
    cases rest with
    | nil =>
      simp only [joinNl]
      exact splitNl_of_no_newline l (h l (List.mem_cons_self l []))
    | cons l2 r2 =>
      simp only [joinNl]
      rw [splitNl_append l _ (h l (List.mem_cons_self l _))]
      rw [ih (by simp) (fun x hx => h x (List.mem_cons_of_mem l hx))]

/-! ### Invariants of the keywords reduce -/

theorem keywordsStep_good (prev : List JStr) (next : JStr)
    (hp : ∀ l ∈ prev, goodLine l) (hn : ('\n' : Char) ∉ next) :
    ∀ l ∈ keywordsStep prev next, goodLine l := by
  intro l hl
  by_cases hne : next = []
  · subst hne
    simp only [keywordsStep, ne_eq, not_true_eq_false, if_false, true_and, reduceIte] at hl
    split at hl
    · rcases List.mem_append.mp hl with h1 | h1
      · exact hp l h1
      · simp only [List.mem_singleton] at h1
        subst h1
        exact ⟨by simp, by simp⟩
    · exact hp l hl
  · simp only [keywordsStep, ne_eq, hne, not_false_eq_true, if_true, false_and, if_false,
      reduceIte] at hl
    rcases List.mem_append.mp hl with h1 | h1
    · exact hp l h1
    · simp only [List.mem_singleton] at h1
      subst h1
      refine ⟨fun hm => hn (List.take_subset _ _ hm), fun _ => ?_⟩
      simp [List.length_take]

theorem foldl_keywordsStep_good (lines : List JStr) :
    ∀ acc, (∀ x ∈ lines, ('\n' : Char) ∉ x) → (∀ l ∈ acc, goodLine l) →
    ∀ l ∈ lines.foldl keywordsStep acc, goodLine l := by
  induction lines with
  | nil =>
    intro acc _ hacc
    simpa using hacc
  | cons x xs ih =>
    intro acc hx hacc
    simp only [List.foldl_cons]
    exact ih _ (fun y hy => hx y (List.mem_cons_of_mem x hy))
      (keywordsStep_good acc x hacc (hx x (List.mem_cons_self x xs)))

theorem keywordsArr_good (value : JStr) : ∀ l ∈ keywordsArr value, goodLine l :=
  foldl_keywordsStep_good (splitNl value) [] (mem_splitNl_no_newline value) (by simp)

theorem newKeywords_bounds (value : JStr) :
    (splitNl (newKeywords value)).length ≤ 100 ∧
    ∀ l ∈ splitNl (newKeywords value), l ≠ [] → l.length ≤ 100 := by
  by_cases harr : (keywordsArr value).take 100 = []
  · rw [newKeywords, harr]
    simp [joinNl, splitNl]
  · have hgood : ∀ l ∈ (keywordsArr value).take 100, goodLine l :=
      fun l hl => keywordsArr_good value l (List.take_subset _ _ hl)
    have hsplit : splitNl (newKeywords value) = (keywordsArr value).take 100 := by
      rw [newKeywords]
      exact splitNl_joinNl _ harr (fun l hl => (hgood l hl).1)
    rw [hsplit]
    refine ⟨?_, fun l hl => (hgood l hl).2⟩
    simp [List.length_take]

/-- Claim C1: for every input string passed to the keywords mutation, the
stored `configs.keywords` value, split on newline, has at most 100 lines,
and every non-empty line in it has length at most 100 characters. -/
theorem keywords_mutation_bounded (value : JStr) (d : ModerationConfig) :
    ∃ c, (handleDataKeywordsChange value d).configs = some c ∧
      c.keywords = some (newKeywords value) ∧
      (splitNl (newKeywords value)).length ≤ 100 ∧
      ∀ l ∈ splitNl (newKeywords value), l ≠ [] → l.length ≤ 100 :=
  ⟨_, rfl, rfl, (newKeywords_bounds value).1, (newKeywords_bounds value).2⟩

/-- Claim C2, counterexample: applying the keywords mutation to `"a\nb\n"`
on a state with no keywords does NOT store `"a\nb"` (the trailing empty
line is preserved, not collapsed). -/
theorem keywords_anb_counterexample :
    (handleDataKeywordsChange c2value c2prior).configs.bind Configs.keywords ≠
      some ['a', '\n', 'b'] := by
  decide

/-- Claim C2, amended: applying the keywords mutation to `"a\nb\n"` on a
state with no keywords stores `"a\nb\n"` — the trailing empty line is kept —
and the non-empty-line counter over the stored value reports exactly 2. -/
theorem keywords_anb_amended :
    (handleDataKeywordsChange c2value c2prior).configs.bind Configs.keywords =
      some ['a', '\n', 'b', '\n'] ∧
    keywordsDisplayCount (handleDataKeywordsChange c2value c2prior) = 2 := by
  decide

/-! ### Lemmas about the validation sequence -/

theorem rule0_false_configs_some (d : ModerationConfig) (h : rule0Violated d = false) :
    ∃ c, d.configs = some c := by
  cases hc : d.configs with
  | some c => exact ⟨c, rfl⟩
  | none =>
    exfalso
    simp [rule0Violated, inputsEnabled, outputsEnabled, hc] at h

theorem validate_none_inv (provs : List Provider) (locale : String) (d : ModerationConfig)
    (h : validate provs locale d = none) :
    rule0Violated d = false ∧ rule1Violated d = false ∧ rule2Violated d = false ∧
    firstMissingField provs d = none ∧ rule4Violated d = false ∧ rule5Violated d = false := by
  unfold validate at h
  cases h0 : rule0Violated d with
  | true => simp [h0] at h
  | false =>
  cases h1 : rule1Violated d with
  | true => simp [h0, h1] at h
  | false =>
  cases h2 : rule2Violated d with
  | true => simp [h0, h1, h2] at h
  | false =>
  cases hf : firstMissingField provs d with
  | some f => simp [h0, h1, h2, hf] at h
  | none =>
  cases h4 : rule4Violated d with
  | true => simp [h0, h1, h2, hf, h4] at h
  | false =>
  cases h5 : rule5Violated d with
  | true => simp [h0, h1, h2, hf, h4, h5] at h
  | false => simp

theorem validate_first_rule (provs : List Provider) (locale : String) (d : ModerationConfig)
    (j : Nat) (hj : j < 6) (hviol : ruleViolated provs d j = true)
    (hmin : ∀ k, k < j → ruleViolated provs d k = false) :
    validate provs locale d = some (ruleError provs locale d j) := by
  interval_cases j
  · have h0 : rule0Violated d = true := hviol
    simp [validate, ruleError, h0]
  · have h0 : rule0Violated d = false := hmin 0 (by omega)
    have h1 : rule1Violated d = true := hviol
    simp [validate, ruleError, h0, h1]
  · have h0 : rule0Violated d = false := hmin 0 (by omega)
    have h1 : rule1Violated d = false := hmin 1 (by omega)
    have h2 : rule2Violated d = true := hviol
    simp [validate, ruleError, h0, h1, h2]
  · have h0 : rule0Violated d = false := hmin 0 (by omega)
    have h1 : rule1Violated d = false := hmin 1 (by omega)
    have h2 : rule2Violated d = false := hmin 2 (by omega)
    have h3 : (firstMissingField provs d).isSome = true := hviol
    obtain ⟨f, hf⟩ := Option.isSome_iff_exists.mp h3
    simp [validate, ruleError, h0, h1, h2, hf]
  · have h0 : rule0Violated d = false := hmin 0 (by omega)
    have h1 : rule1Violated d = false := hmin 1 (by omega)
    have h2 : rule2Violated d = false := hmin 2 (by omega)
    have h3 : rule3Violated provs d = false := hmin 3 (by omega)
    have hf : firstMissingField provs d = none := by
      cases hf : firstMissingField provs d with
      | none => rfl
      | some f => simp [rule3Violated, hf] at h3
    have h4 : rule4Violated d = true := hviol
    simp [validate, ruleError, h0, h1, h2, hf, h4]
  · have h0 : rule0Violated d = false := hmin 0 (by omega)
    have h1 : rule1Violated d = false := hmin 1 (by omega)
    have h2 : rule2Violated d = false := hmin 2 (by omega)
    have h3 : rule3Violated provs d = false := hmin 3 (by omega)
    have hf : firstMissingField provs d = none := by
      cases hf : firstMissingField provs d with
      | none => rfl
      | some f => simp [rule3Violated, hf] at h3
    have h4 : rule4Violated d = false := hmin 4 (by omega)
    have h5 : rule5Violated d = true := hviol
    simp [validate, ruleError, h0, h1, h2, hf, h4, h5]

/-- Claim C4: whenever some validation rule is violated, `handleSave`
notifies exactly the error of the first violated rule (in the fixed source
order), never invokes the save callback, and leaves the working copy
unchanged. -/
theorem save_first_violation_only (provs : List Provider) (locale : String)
    (d : ModerationConfig) (j : Nat) (hj : j < 6)
    (hviol : ruleViolated provs d j = true)
    (hmin : ∀ k, k < j → ruleViolated provs d k = false) :
    handleSave provs locale d = some ⟨d, some (ruleError provs locale d j), none⟩ := by
  unfold handleSave
  rw [validate_first_rule provs locale d j hj hviol hmin]

/-- Witness for C4: a state with nothing enabled violates rule 0, and
`handleSave` notifies the condition error without saving. -/
theorem save_first_violation_only_witness :
    handleSave [] "en" nothingEnabledData =
      some ⟨nothingEnabledData, some (ruleError [] "en" nothingEnabledData 0), none⟩ :=
  save_first_violation_only [] "en" nothingEnabledData 0 (by decide) (by decide)
    (fun k hk => absurd hk (Nat.not_lt_zero k))

/-- Claim C8: the provider-type mutation always leaves `configs`
undefined, keeps `enabled`, and sets `type` to its argument. -/
theorem type_change_resets_configs (ty : String) (d : ModerationConfig) :
    (handleDataTypeChange ty d).configs = none ∧
    (handleDataTypeChange ty d).enabled = d.enabled ∧
    (handleDataTypeChange ty d).type = ty :=
  ⟨rfl, rfl, rfl⟩

/-- Claim C9: when validation passes, the working copy's `configs` is
necessarily defined, so the non-null destructuring in `formatData` cannot
fault. -/
theorem save_formatData_never_faults (provs : List Provider) (locale : String)
    (d : ModerationConfig) (h : validate provs locale d = none) :
    ∃ c, d.configs = some c ∧ (formatData provs d).isSome = true := by
  obtain ⟨h0, -, -, -, -, -⟩ := validate_none_inv provs locale d h
  obtain ⟨c, hc⟩ := rule0_false_configs_some d h0
  refine ⟨c, hc, ?_⟩
  obtain ⟨e, ty, oc⟩ := d
  simp only at hc
  subst hc
  simp [formatData]

/-- Witness for C9: a passing openai-moderation configuration has its
configs defined and `formatData` returns a value. -/
theorem save_formatData_never_faults_witness :
    ∃ c, validData.configs = some c ∧ (formatData [] validData).isSome = true :=
  save_formatData_never_faults [] "en" validData (by decide)

/-! ### The dynamic-provider form-schema rule -/

theorem find_first_structure {α : Type} (p : α → Bool) (l : List α) (a : α)
    (h : l.find? p = some a) :
    p a = true ∧ ∃ l1 l2, l = l1 ++ a :: l2 ∧ ∀ x ∈ l1, p x = false := by
  induction l with
  | nil => simp at h
  | cons x xs ih =>
    cases hx : p x with
    | true =>
      rw [List.find?_cons_of_pos _ hx] at h
      obtain rfl : x = a := by simpa using h
      exact ⟨hx, [], xs, rfl, by simp⟩
    | false =>
      rw [List.find?_cons_of_neg _ (by simp [hx])] at h
      obtain ⟨ha, l1, l2, heq, hall⟩ := ih h
      refine ⟨ha, x :: l1, l2, by rw [heq]; rfl, ?_⟩
      intro y hy
      rcases List.mem_cons.mp hy with h1 | h1
      · exact h1 ▸ hx
      · exact hall y h1

theorem schemaOf_not_system (provs : List Provider) (ty : String) (s : List FormField)
    (h : schemaOf provs ty = some s) : systemTypes.contains ty = false := by
  cases hc : systemTypes.contains ty with
  | false => rfl
  | true =>
    exfalso
    have hmem : ty ∈ systemTypes := by simpa using hc
    simp [schemaOf, hmem] at h

theorem contains_false_ne (ty : String) (h : systemTypes.contains ty = false) :
    ty ≠ "keywords" ∧ ty ≠ "api" := by
  constructor
  · intro e
    subst e
    exact absurd h (by decide)
  · intro e
    subst e
    exact absurd h (by decide)

/-- Claim C6, counterexample: dynamic provider type, schema requiring
`api_key` then `region`, empty configs — validation reports the
no-direction-enabled condition error, not `api_key`. -/
theorem dyn_empty_configs_counterexample :
    validate dynProviders "en" c6data = some SaveError.conditionNotMet ∧
    validate dynProviders "en" c6data ≠ some (SaveError.valueOfVarRequired "api_key") := by
  decide

/-- Claim C6, amended: for a configuration of dynamic type whose matching
provider declares a form schema, once the no-direction-enabled rule does
not fire, validation fails naming (via its localized label) exactly the
first schema field, in declaration order, whose value in configs is empty,
whenever such a field exists. -/
theorem dyn_schema_first_missing_reported (provs : List Provider) (locale : String)
    (d : ModerationConfig) (f : FormField)
    (h0 : rule0Violated d = false)
    (hf : firstMissingField provs d = some f) :
    validate provs locale d =
      some (.valueOfVarRequired (if locale == "en" then f.label.en_US else f.label.zh_Hans)) ∧
    ∃ schema l1 l2, schemaOf provs d.type = some schema ∧ schema = l1 ++ f :: l2 ∧
      (∀ g ∈ l1, truthyStr (lookupVar d.configs g.varName) = true) ∧
      truthyStr (lookupVar d.configs f.varName) = false := by
  have hs : ∃ schema, schemaOf provs d.type = some schema ∧
      schema.find? (fun g => !truthyStr (lookupVar d.configs g.varName)) = some f := by
    cases hsc : schemaOf provs d.type with
    | none => simp [firstMissingField, hsc] at hf
    | some schema =>
      refine ⟨schema, rfl, ?_⟩
      simpa [firstMissingField, hsc] using hf
  obtain ⟨schema, hsc, hfind⟩ := hs
  have hne := contains_false_ne d.type (schemaOf_not_system provs d.type schema hsc)
  have h1 : rule1Violated d = false := by
    simp [rule1Violated, hne.1]
  have h2 : rule2Violated d = false := by
    simp [rule2Violated, hne.2]
  obtain ⟨hpf, l1, l2, heq, hall⟩ := find_first_structure _ schema f hfind
  refine ⟨?_, schema, l1, l2, hsc, heq, ?_, ?_⟩
  · simp [validate, h0, h1, h2, firstMissingField, hsc, hfind]
  · intro g hg
    have := hall g hg
    simpa using this
  · simpa using hpf

/-- Witness for the amended C6: with inputs moderation enabled and both
schema fields empty, the reported field is `api_key`, the first in schema
order. -/
theorem dyn_schema_first_missing_reported_witness :
    validate dynProviders "en" c6dataEnabled =
      some (SaveError.valueOfVarRequired "api_key") ∧
    ∃ schema l1 l2, schemaOf dynProviders c6dataEnabled.type = some schema ∧
      schema = l1 ++ (⟨"api_key", ⟨"api_key", "api_key"⟩⟩ : FormField) :: l2 ∧
      (∀ g ∈ l1, truthyStr (lookupVar c6dataEnabled.configs g.varName) = true) ∧
      truthyStr (lookupVar c6dataEnabled.configs "api_key") = false :=
  dyn_schema_first_missing_reported dynProviders "en" c6dataEnabled
    ⟨"api_key", ⟨"api_key", "api_key"⟩⟩ (by decide) (by decide)

/-- Claim C7: past the earlier rules, an enabled direction with an empty
preset response fails with the preset-response error unless the type is
`api`; for the `api` type no preset response is required and validation
passes. -/
theorem preset_response_required (provs : List Provider) (locale : String)
    (d : ModerationConfig)
    (h0 : rule0Violated d = false) (h1 : rule1Violated d = false)
    (h2 : rule2Violated d = false) (h3 : firstMissingField provs d = none) :
    (inputsEnabled d = true ∧ d.type ≠ "api" ∧ truthyStr (inputsPresetResponse d) = false →
        validate provs locale d = some SaveError.presetResponseMissing) ∧
    (outputsEnabled d = true ∧ d.type ≠ "api" ∧ truthyStr (outputsPresetResponse d) = false →
        validate provs locale d = some SaveError.presetResponseMissing) ∧
    (d.type = "api" → validate provs locale d = none) := by
  refine ⟨?_, ?_, ?_⟩
  · rintro ⟨hin, hapi, hpre⟩
    have h4 : rule4Violated d = true := by
      simp [rule4Violated, hin, hpre, hapi]
    simp [validate, h0, h1, h2, h3, h4]
  · rintro ⟨hout, hapi, hpre⟩
    have h5 : rule5Violated d = true := by
      simp [rule5Violated, hout, hpre, hapi]
    cases h4 : rule4Violated d with
    | true => simp [validate, h0, h1, h2, h3, h4]
    | false => simp [validate, h0, h1, h2, h3, h4, h5]
  · intro hapi
    have h4 : rule4Violated d = false := by
      simp [rule4Violated, hapi]
    have h5 : rule5Violated d = false := by
      simp [rule5Violated, hapi]
    simp [validate, h0, h1, h2, h3, h4, h5]

/-- Witness for C7: an api-type configuration with inputs enabled, no
preset response anywhere, and an extension id selected passes validation. -/
theorem preset_response_required_witness :
    (inputsEnabled apiData = true ∧ apiData.type ≠ "api" ∧
        truthyStr (inputsPresetResponse apiData) = false →
      validate [] "en" apiData = some SaveError.presetResponseMissing) ∧
    (outputsEnabled apiData = true ∧ apiData.type ≠ "api" ∧
        truthyStr (outputsPresetResponse apiData) = false →
      validate [] "en" apiData = some SaveError.presetResponseMissing) ∧
    (apiData.type = "api" → validate [] "en" apiData = none) :=
  preset_response_required [] "en" apiData (by decide) (by decide) (by decide) (by decide)

/-! ### The normalizer -/

theorem lookup_map_self (g : String → Option String) (l : List FormField) (v : String)
    (h : ∃ f ∈ l, f.varName = v) :
    (l.map (fun f => (f.varName, g f.varName))).lookup v = some (g v) := by
  induction l with
  | nil => simp at h
  | cons f0 t ih =>
    cases hv : v == f0.varName with
    | true =>
      have hveq : v = f0.varName := by simpa using hv
      simp [List.lookup, hv, hveq]
    | false =>
      have hne : v ≠ f0.varName := by simpa using hv
      simp only [List.map_cons, List.lookup, hv]
      apply ih
      rcases h with ⟨f, hf, hfv⟩
      rcases List.mem_cons.mp hf with h1 | h1
      · exact absurd (h1 ▸ hfv).symm hne
      · exact ⟨f, h1, hfv⟩

theorem lookupVar_mapped (g : String → Option String) (schema : List FormField)
    (a b : Option ModerationContentConfig) (kv : Option JStr) (ai : Option String)
    (f : FormField) (hf : f ∈ schema) :
    lookupVar (some ⟨a, b, kv, ai, schema.map (fun f2 => (f2.varName, g f2.varName))⟩)
      f.varName = g f.varName := by
  have hl := lookup_map_self g schema f.varName ⟨f, hf, rfl⟩
  simp only [lookupVar]
  rw [hl]

theorem formatData_idem (provs : List Provider) (d out : ModerationConfig)
    (h : formatData provs d = some out) : formatData provs out = some out := by
  obtain ⟨e, ty, oc⟩ := d
  cases oc with
  | none => simp [formatData] at h
  | some c =>
    simp only [formatData] at h
    rw [Option.some.injEq] at h
    subst h
    cases hs : schemaOf provs ty with
    | none =>
      simp only [formatData, hs]
      simp
      exact ⟨fun hk => (if_neg hk).symm, fun ha => (if_neg ha).symm⟩
    | some schema =>
      simp only [formatData, hs]
      simp
      refine ⟨fun hk => (if_neg hk).symm, fun ha => (if_neg ha).symm, ?_⟩
      intro f hf
      exact lookupVar_mapped (fun v => lookupVar (some c) v) schema _ _ _ _ f hf

/-- Claim C3: on a defined configs, `formatData` produces exactly the
projection described by the spec's normalizer — `type`, `enabled`, and a
`configs` holding the (defaulted) direction configs, `keywords` only for
the keywords type, the extension id only for the api type, and one entry
per schema variable only for a dynamic provider; all other fields of the
working copy's configs are dropped. -/
theorem formatData_is_projection (provs : List Provider) (d : ModerationConfig)
    (c : Configs) (h : d.configs = some c) :
    formatData provs d = some (normalizeSpec provs d c) := by
  obtain ⟨e, ty, oc⟩ := d
  simp only at h
  subst h
  simp [formatData, normalizeSpec, keepWhen, specExtraFields]

/-- Witness for C3: the projection at a concrete openai-moderation
configuration. -/
theorem formatData_is_projection_witness :
    formatData [] validData =
      some (normalizeSpec [] validData
        { emptyConfigs with inputs_configs := some ⟨true, some "blocked"⟩ }) :=
  formatData_is_projection [] validData
    { emptyConfigs with inputs_configs := some ⟨true, some "blocked"⟩ } rfl

/-- Claim C5: normalization is idempotent — for every configuration that
passes validation, applying `formatData` to its own output yields the same
value as applying it once. -/
theorem normalize_idempotent (provs : List Provider) (locale : String)
    (d : ModerationConfig) (h : validate provs locale d = none) :
    ∃ out, formatData provs d = some out ∧ formatData provs out = some out := by
  obtain ⟨h0, -, -, -, -, -⟩ := validate_none_inv provs locale d h
  obtain ⟨c, hc⟩ := rule0_false_configs_some d h0
  have hout : ∃ out, formatData provs d = some out := by
    obtain ⟨e, ty, oc⟩ := d
    simp only at hc
    subst hc
    simp [formatData]
  obtain ⟨out, hout⟩ := hout
  exact ⟨out, hout, formatData_idem provs d out hout⟩

/-- Witness for C5: idempotence at a concrete passing configuration. -/
theorem normalize_idempotent_witness :
    ∃ out, formatData [] validData = some out ∧ formatData [] out = some out :=
  normalize_idempotent [] "en" validData (by decide)

/-- Claim C10: for every plan other than sandbox and enterprise, the
yearly display shows exactly 10 times the monthly price with a savings
badge of exactly 2 times the monthly price, and the monthly display shows
the monthly price unchanged with no badge. -/
theorem plan_price_display (plan : Plan) (price : Nat)
    (h1 : plan ≠ Plan.sandbox) (h2 : plan ≠ Plan.enterprise) :
    planPriceView plan price .yearly = .amount (price * 10) (some (price * 2)) ∧
    planPriceView plan price .monthly = .amount price none := by
  simp [planPriceView, h1, h2]

/-- Witness for C10: the professional plan at 59 dollars a month. -/
theorem plan_price_display_witness :
    planPriceView Plan.professional 59 PlanRange.yearly =
      PriceView.amount (59 * 10) (some (59 * 2)) ∧
    planPriceView Plan.professional 59 PlanRange.monthly =
      PriceView.amount 59 none :=
  plan_price_display Plan.professional 59 (by decide) (by decide)
